import Mathlib

/-!
Shallow embedding of the twpost repository.

The functions below are translated from the Python sources:
  - src/tweet_db.py      : parse_count, parse_ocr_to_tweets, tweet_from_xhr_json
  - src/chrome_utils.py  : ensure_chrome_cdp (also duplicated in src/v2post.py)
  - src/twfeed.py        : extract_tweet_id (also duplicated in src/twpost.py)

Modelling conventions:
  - Python strings are modelled as Lean String / List Char.  Character classes
    of the regexes (backslash-d, backslash-s, the A-Z ranges) are modelled over
    ASCII; the Unicode generalisations of the Python classes are not modelled.
  - The Python float type is modelled by exact decimal values m * 10^e
    (IEEE double rounding is not modelled); the overflow-to-infinity behaviour
    of float(str) and of int(float) raising OverflowError on infinity is
    modelled exactly at the decimal level.
  - Exceptions escaping a function are modelled with Except String, the error
    value naming the Python exception class.
  - I/O in ensure_chrome_cdp (socket probes, sleeps, process restart) is
    abstracted: the initial port state and the result of each poll of the CDP
    port are oracle inputs; the returned pair is
    (the boolean result, whether Chrome was restarted).
-/

/-- Whitespace stripped by the Python str.strip() (ASCII part). -/
def pyIsSpace (c : Char) : Bool :=
  c = ' ' || c = '\t' || c = '\n' || c = '\r' || c = '\x0b' || c = '\x0c'

/-- Model of the Python str.strip(): drop whitespace from both ends. -/
def pyStrip (l : List Char) : List Char :=
  ((l.dropWhile pyIsSpace).reverse.dropWhile pyIsSpace).reverse

/-- String-level wrapper of pyStrip. -/
def pyStripS (s : String) : String := String.mk (pyStrip s.data)

/-- Model of the Python str.split with separator a single newline:
no collapsing of empty pieces, and the empty string yields one empty piece. -/
def splitNl : List Char → List (List Char)
  | [] => [[]]
  | c :: rest =>
    if c = '\n' then [] :: splitNl rest
    else
      match splitNl rest with
      | a :: tail => (c :: a) :: tail
      | [] => [[c]]

/-- Joining with a newline separator, the inverse of splitNl;
models the Python newline.join(content_lines). -/
def joinNl : List (List Char) → List Char
  | [] => []
  | [a] => a
  | a :: b :: rest => a ++ '\n' :: joinNl (b :: rest)

/-- The regex word class A-Za-z0-9_ used by the handle pattern. -/
def isWordChar (c : Char) : Bool := c.isAlphanum || c = '_'

/-- Model of re.search of the handle pattern on a line: the leftmost
at-sign followed by at least one word character; the returned group is the
maximal run of word characters after that at-sign. -/
def handleSearch : List Char → Option (List Char)
  | [] => none
  | c :: rest =>
    if c = '@' then
      match rest with
      | d :: _ => if isWordChar d then some (rest.takeWhile isWordChar) else handleSearch rest
      | [] => none
    else handleSearch rest

/-- Model of re.match of the handle pattern (anchored at the start). -/
def handleMatchB (l : List Char) : Bool :=
  match l with
  | '@' :: d :: _ => isWordChar d
  | _ => false

/-- The character class of the stats pattern body: digit, comma or dot. -/
def isStatChar (c : Char) : Bool := c.isDigit || c = ',' || c = '.'

/-- The optional suffix class of the stats pattern: K, M, k or m. -/
def isKM (c : Char) : Bool := c = 'K' || c = 'M' || c = 'k' || c = 'm'

/-- The reversed-list core of the stats pattern check. -/
def statsMatchRev : List Char → Bool
  | [] => false
  | c :: rest =>
    if isKM c then !rest.isEmpty && rest.all isStatChar
    else (c :: rest).all isStatChar

/-- Model of the anchored stats pattern: one or more of digit/comma/dot,
then an optional K/M/k/m, matched against the whole line. -/
def statsMatch (l : List Char) : Bool :=
  statsMatchRev l.reverse

/-- First alternative of the time pattern: digits then one of h, m, s. -/
def timeAlt1 (l : List Char) : Bool :=
  !(l.takeWhile Char.isDigit).isEmpty &&
    (l.dropWhile Char.isDigit == ['h'] || l.dropWhile Char.isDigit == ['m'] ||
     l.dropWhile Char.isDigit == ['s'])

/-- Second alternative of the time pattern: digits then the two Chinese
characters for hours. -/
def timeAlt2 (l : List Char) : Bool :=
  !(l.takeWhile Char.isDigit).isEmpty && l.dropWhile Char.isDigit == ['小', '时']

/-- Third alternative of the time pattern: an uppercase letter, two lowercase
letters, whitespace, then digits (month-name dates such as May 15). -/
def timeAlt3 (l : List Char) : Bool :=
  match l with
  | c1 :: c2 :: c3 :: rest =>
    c1.isUpper && c2.isLower && c3.isLower &&
      (!(rest.takeWhile pyIsSpace).isEmpty &&
       (!(rest.dropWhile pyIsSpace).isEmpty &&
        (rest.dropWhile pyIsSpace).all Char.isDigit))
  | _ => false

/-- The part of the fourth time alternative after the leading digits. -/
def timeAlt4Rest : List Char → Bool
  | [] => false
  | c :: r2 =>
    c == '月' &&
      (((r2.takeWhile Char.isDigit).length == 1 ||
        (r2.takeWhile Char.isDigit).length == 2) &&
       r2.dropWhile Char.isDigit == ['日'])

/-- Fourth alternative of the time pattern: one or two digits, the Chinese
month character, one or two digits, the Chinese day character. -/
def timeAlt4 (l : List Char) : Bool :=
  ((l.takeWhile Char.isDigit).length == 1 || (l.takeWhile Char.isDigit).length == 2) &&
    timeAlt4Rest (l.dropWhile Char.isDigit)

/-- Model of re.match of the time pattern (four anchored alternatives). -/
def timeMatch (l : List Char) : Bool :=
  timeAlt1 l || timeAlt2 l || timeAlt3 l || timeAlt4 l

/-- A Python float value: an exact finite decimal m * 10^e, an infinity,
or a NaN.  Rounding of decimal literals to binary doubles is not modelled;
the decimal value is kept exactly. -/
inductive PyFloat where
  | finite (m : Int) (e : Int)
  | infinite (pos : Bool)
  | nan
deriving Repr, DecidableEq

/-- Reads the continuation of a digit group in the Python float grammar:
a greedy sequence of digits where a single underscore may stand between two
digits.  Returns the digits read and the unread remainder. -/
def digMore : List Char → List Char × List Char
  | [] => ([], [])
  | c :: rest =>
    if c.isDigit then
      match digMore rest with
      | (ds, r) => (c :: ds, r)
    else if c = '_' then
      match rest with
      | d :: rest2 =>
        if d.isDigit then
          match digMore rest2 with
          | (ds, r) => (d :: ds, r)
        else ([], c :: rest)
      | [] => ([], c :: rest)
    else ([], c :: rest)

/-- A digit group of the Python float grammar: at least one digit, with
single underscores allowed between digits. -/
def digitPart (l : List Char) : Option (List Char × List Char) :=
  match l with
  | [] => none
  | c :: rest =>
    if c.isDigit then
      match digMore rest with
      | (ds, r) => some (c :: ds, r)
    else none

/-- The mantissa of the Python float grammar: integer digits with an optional
fraction, or a leading dot with fraction digits.  Returns the integer digits,
the fraction digits, and the unread remainder. -/
def parseMantissa (l : List Char) : Option (List Char × List Char × List Char) :=
  match digitPart l with
  | some (ip, rest) =>
    match rest with
    | '.' :: rest2 =>
      match digitPart rest2 with
      | some (fp, rest3) => some (ip, fp, rest3)
      | none => some (ip, [], rest2)
    | _ => some (ip, [], rest)
  | none =>
    match l with
    | '.' :: rest2 =>
      match digitPart rest2 with
      | some (fp, rest3) => some ([], fp, rest3)
      | none => none
    | _ => none

/-- Decimal value of a digit list. -/
def digitsToNat (l : List Char) : Nat :=
  l.foldl (fun n c => 10 * n + (c.toNat - 48)) 0

/-- The optional exponent of the Python float grammar. -/
def parseExp (l : List Char) : Option (Int × List Char) :=
  match l with
  | [] => some (0, [])
  | c :: rest =>
    if c = 'e' || c = 'E' then
      match rest with
      | '+' :: r1 =>
        match digitPart r1 with
        | some (ds, r2) => some ((digitsToNat ds : Int), r2)
        | none => none
      | '-' :: r1 =>
        match digitPart r1 with
        | some (ds, r2) => some (-(digitsToNat ds : Int), r2)
        | none => none
      | r1 =>
        match digitPart r1 with
        | some (ds, r2) => some ((digitsToNat ds : Int), r2)
        | none => none
    else some (0, c :: rest)

/-- Number of decimal digits of a natural number. -/
def natDigitCount (n : Nat) : Nat := (Nat.toDigits 10 n).length

/-- Whether the exact decimal m * 10^e overflows the double range, in which
case the Python float conversion yields an infinity.  The threshold is
2^1024 - 2^970, the first value that rounds up to infinity. -/
def decOverflow (m : Int) (e : Int) : Bool :=
  if m = 0 then false
  else
    let t : Int := (natDigitCount m.natAbs : Int) + e
    if 310 ≤ t then true
    else if t ≤ 308 then false
    else if 0 ≤ e then
      decide ((2 ^ 1024 - 2 ^ 970 : Nat) ≤ m.natAbs * 10 ^ e.toNat)
    else
      decide ((2 ^ 1024 - 2 ^ 970 : Nat) * 10 ^ (-e).toNat ≤ m.natAbs)

/-- Truncation toward zero of the exact decimal m * 10^e, the behaviour of
the Python int() applied to a finite float. -/
def decTrunc (m : Int) (e : Int) : Int :=
  if 0 ≤ e then m * 10 ^ e.toNat
  else if (natDigitCount m.natAbs : Int) + e ≤ 0 then 0
  else Int.tdiv m (10 ^ (-e).toNat)

/-- Builds a float from an exact decimal, overflowing to infinity exactly as
the Python float conversion does. -/
def mkPyFloat (m : Int) (e : Int) : PyFloat :=
  if decOverflow m e then PyFloat.infinite (decide (0 < m)) else PyFloat.finite m e

/-- Multiplication of a float by 10^k (the 1000 and 1_000_000 scalings of
parse_count), overflow re-checked as the Python multiplication would. -/
def pyScalePow10 (f : PyFloat) (k : Nat) : PyFloat :=
  match f with
  | PyFloat.finite m e => mkPyFloat m (e + (k : Int))
  | PyFloat.infinite p => PyFloat.infinite p
  | PyFloat.nan => PyFloat.nan

/-- Model of the Python float(str) conversion: strip whitespace, optional
sign, then inf/infinity/nan case-insensitively, or mantissa and exponent.
Returns none where the Python conversion raises ValueError. -/
def pyFloatParse (s : List Char) : Option PyFloat :=
  let l := pyStrip s
  let sgn : Bool × List Char :=
    match l with
    | '+' :: r => (false, r)
    | '-' :: r => (true, r)
    | r => (false, r)
  let neg := sgn.1
  let l1 := sgn.2
  let low := l1.map Char.toLower
  if low = "inf".data || low = "infinity".data then some (PyFloat.infinite (!neg))
  else if low = "nan".data then some PyFloat.nan
  else
    match parseMantissa l1 with
    | none => none
    | some (ip, fp, rest) =>
      match parseExp rest with
      | none => none
      | some (ex, rest2) =>
        if rest2 = [] then
          let mm : Int := (digitsToNat (ip ++ fp) : Int)
          some (mkPyFloat (if neg then -mm else mm) (ex - (fp.length : Int)))
        else none

/-- The text transform of parse_count: strip, uppercase (ASCII), remove
commas. -/
def pyTransform (s : String) : List Char :=
  ((pyStrip s.data).map Char.toUpper).filter (fun c => c ≠ ',')

/-- The text parse_count feeds to float(): with all K removed when a K is
present, else with all M removed when an M is present, else unchanged. -/
def countCore (t : List Char) : List Char :=
  if 'K' ∈ t then t.filter (fun c => c ≠ 'K')
  else if 'M' ∈ t then t.filter (fun c => c ≠ 'M')
  else t

/-- The power-of-ten scaling applied by parse_count in each branch. -/
def countScale (t : List Char) : Nat :=
  if 'K' ∈ t then 3 else if 'M' ∈ t then 6 else 0

/-- Model of parse_count from src/tweet_db.py: empty text gives None;
float ValueError (and int of NaN, which raises a caught ValueError) gives
None; int of an infinity raises OverflowError, which the except clause of
parse_count does not catch. -/
def parse_count (text : String) : Except String (Option Int) :=
  if text.data = [] then Except.ok none
  else
    match pyFloatParse (countCore (pyTransform text)) with
    | none => Except.ok none
    | some f =>
      match pyScalePow10 f (countScale (pyTransform text)) with
      | PyFloat.finite m e => Except.ok (some (decTrunc m e))
      | PyFloat.infinite _ => Except.error "OverflowError"
      | PyFloat.nan => Except.ok none

/-- The Tweet dataclass of src/tweet_db.py (fields used by the parsing and
URL logic; the datetime, voice, flag and raw-json fields play no role in the
claims and are omitted). -/
structure Tweet where
  author : String
  author_name : String
  content : String
  tweet_url : Option String := none
  likes : Option Int := none
  retweets : Option Int := none
  views : Option Int := none
  tweet_id : Option String := none
  reply_count : Option Int := none
  quote_count : Option Int := none
  user_followers : Option Int := none
  user_friends : Option Int := none
  user_description : Option String := none
  data_source : String := "ocr"
deriving Repr, DecidableEq

/-- The lines skipped as noise before any classification. -/
def skipTokens : List (List Char) :=
  ["Following".data, "For you".data, "Show more".data, "...".data]

/-- The UI noise lines filtered out of accumulated content. -/
def noiseTokens : List (List Char) :=
  ["Reply".data, "Repost".data, "Like".data, "Share".data, "Bookmark".data,
   "Views".data, "回复".data, "转推".data, "喜欢".data, "分享".data,
   "书签".data, "浏览".data]

/-- Loop state of parse_ocr_to_tweets: tweets collected so far, the open
record, and its accumulated content lines. -/
structure ParseState where
  tweets : List Tweet
  current : Option Tweet
  contents : List (List Char)
deriving Repr, DecidableEq

/-- Closing the open record: when it exists and has accumulated lines whose
stripped join is non-empty, it is appended with that join as content. -/
def flushTweets (st : ParseState) : List Tweet :=
  match st.current with
  | none => st.tweets
  | some t =>
    if st.contents = [] then st.tweets
    else if pyStrip (joinNl st.contents) = [] then st.tweets
    else st.tweets ++ [{ t with content := String.mk (pyStrip (joinNl st.contents)) }]

/-- Attribution of a parsed count to the open record: views when views is
unset and the count exceeds 100, else likes when unset, else retweets when
unset, else dropped. -/
def fillCount (t : Tweet) (count : Int) : Tweet :=
  if t.views = none ∧ 100 < count then { t with views := some count }
  else if t.likes = none then { t with likes := some count }
  else if t.retweets = none then { t with retweets := some count }
  else t

/-- Whether the previous raw line strips to the empty string. -/
def prevBlank (prev : Option (List Char)) : Bool :=
  match prev with
  | some p => (pyStrip p).isEmpty
  | none => false

/-- The middle-dot character of the handle-line guard. -/
def middleDot : Char := Char.ofNat 183

/-- The extra guard on a matched handle: the stripped line starts with an
at-sign, or contains a middle dot, or follows a blank line. -/
def handleGuard (prev : Option (List Char)) (line : List Char) : Bool :=
  (match line with | '@' :: _ => true | _ => false) ||
    (middleDot ∈ line : Bool) || prevBlank prev

/-- The display name taken from the stripped previous line when that line is
non-empty and matches neither the handle pattern nor the stats pattern. -/
def authorNameOf (prev : Option (List Char)) : String :=
  match prev with
  | none => ""
  | some p =>
    let pl := pyStrip p
    if !pl.isEmpty && !handleMatchB pl && !statsMatch pl then String.mk pl else ""

/-- A fresh record opened at a handle line. -/
def mkNewTweet (grp : List Char) (prev : Option (List Char)) : Tweet :=
  { author := String.mk ('@' :: grp), author_name := authorNameOf prev, content := "" }

/-- Whether a raw line, given its raw predecessor, starts a new record:
the handle pattern matches its stripped form and the guard holds. -/
def qualifies (prev : Option (List Char)) (lineRaw : List Char) : Bool :=
  match handleSearch (pyStrip lineRaw) with
  | some _ => handleGuard prev (pyStrip lineRaw)
  | none => false

/-- The non-handle part of the loop body: stats line (only with an open
record), then timestamp line, then noise filter, then content accumulation
(only with an open record).  With no open record every such line is skipped. -/
def afterHandle (line : List Char) (st : ParseState) : Except String ParseState :=
  match st.current with
  | none => Except.ok st
  | some t =>
    if statsMatch line then
      match parse_count (String.mk line) with
      | Except.error e => Except.error e
      | Except.ok none => Except.ok st
      | Except.ok (some count) => Except.ok { st with current := some (fillCount t count) }
    else if timeMatch line then Except.ok st
    else if line ∈ noiseTokens then Except.ok st
    else Except.ok { st with contents := st.contents ++ [line] }

/-- One iteration of the parse_ocr_to_tweets loop on the raw line at the
current index, with the raw previous line available. -/
def stepE (prev : Option (List Char)) (lineRaw : List Char) (st : ParseState) :
    Except String ParseState :=
  if pyStrip lineRaw = [] ∨ pyStrip lineRaw ∈ skipTokens then Except.ok st
  else
    match handleSearch (pyStrip lineRaw) with
    | some grp =>
      if handleGuard prev (pyStrip lineRaw) then
        Except.ok { tweets := flushTweets st, current := some (mkNewTweet grp prev),
                    contents := [] }
      else afterHandle (pyStrip lineRaw) st
    | none => afterHandle (pyStrip lineRaw) st

/-- The whole loop over the split lines, threading the raw previous line. -/
def parseLoop : List (List Char) → Option (List Char) → ParseState →
    Except String ParseState
  | [], _, st => Except.ok st
  | l :: rest, prev, st =>
    match stepE prev l st with
    | Except.ok st' => parseLoop rest (some l) st'
    | Except.error e => Except.error e

/-- Model of parse_ocr_to_tweets from src/tweet_db.py: strip the text, split
on newlines, run the classification loop, then close the last open record. -/
def parse_ocr_to_tweets (ocr_text : String) : Except String (List Tweet) :=
  match parseLoop (splitNl (pyStrip ocr_text.data)) none
      { tweets := [], current := none, contents := [] } with
  | Except.ok st => Except.ok (flushTweets st)
  | Except.error e => Except.error e

/-- Whether some line of the list, threaded with its raw predecessor, starts
a new record. -/
def hasHandleStart : Option (List Char) → List (List Char) → Bool
  | _, [] => false
  | prev, l :: rest => qualifies prev l || hasHandleStart (some l) rest

/-- The sleep-and-poll loop of ensure_chrome_cdp: the oracle gives the state
of the CDP port at each poll; the fuel is the fixed iteration count. -/
def pollFrom (poll : Nat → Bool) : Nat → Nat → Bool
  | _, 0 => false
  | k, n + 1 => if poll k then true else pollFrom poll (k + 1) n

/-- Model of ensure_chrome_cdp from src/chrome_utils.py (the copy in
src/v2post.py is identical): when the port is already open it returns True
without restarting; otherwise Chrome is restarted and the port is polled
three times.  Result: (returned boolean, whether Chrome was restarted). -/
def ensure_chrome_cdp (portOpen : Bool) (poll : Nat → Bool) : Bool × Bool :=
  if portOpen then (true, false)
  else (pollFrom poll 0 3, true)

/-- The nested user dictionary of an XHR record (typed fields; absent JSON
keys are none). -/
structure XhrUser where
  name : Option String := none
  screen_name : Option String := none
  description : Option String := none
  followers_count : Option Int := none
  friends_count : Option Int := none
deriving Repr, DecidableEq

/-- An XHR record as consumed by tweet_from_xhr_json, covering both the
nested and the flat format (typed fields; absent JSON keys are none;
the created_at field is not modelled). -/
structure XhrData where
  user : Option XhrUser := none
  tweet_id : Option String := none
  id : Option String := none
  user_name : Option String := none
  screen_name : Option String := none
  user_description : Option String := none
  user_followers : Option Int := none
  user_friends : Option Int := none
  text : Option String := none
  favorite_count : Option Int := none
  retweet_count : Option Int := none
  reply_count : Option Int := none
  quote_count : Option Int := none
deriving Repr, DecidableEq

/-- Python truthiness of an optional string: present and non-empty. -/
def pyTruthyO (o : Option String) : Bool :=
  match o with
  | some s => !s.isEmpty
  | none => false

/-- The Python or-expression on two optional strings. -/
def pyOrOpt (a b : Option String) : Option String := if pyTruthyO a then a else b

/-- The Python or-expression on two strings. -/
def pyOrStr (a b : String) : String := if a.isEmpty then b else a

/-- The Python or-expression on two optional integers (zero is falsy). -/
def pyOrInt (a b : Option Int) : Option Int :=
  match a with
  | some n => if n ≠ 0 then some n else b
  | none => b

/-- The tweet-id resolution of tweet_from_xhr_json: the tweet_id key or,
when falsy, the id key. -/
def xhrTweetId (d : XhrData) : Option String := pyOrOpt d.tweet_id d.id

/-- The screen-name resolution of tweet_from_xhr_json: the nested user
screen_name or, when empty, the flat screen_name. -/
def xhrScreenName (d : XhrData) : String :=
  pyOrStr ((d.user.getD {}).screen_name.getD "") (d.screen_name.getD "")

/-- The URL construction of tweet_from_xhr_json: built only when both the
resolved tweet id and screen name are truthy. -/
def xhrTweetUrl (d : XhrData) : Option String :=
  if pyTruthyO (xhrTweetId d) && !(xhrScreenName d).isEmpty then
    some ("https://x.com/" ++ xhrScreenName d ++ "/status/" ++ (xhrTweetId d).getD "")
  else none

/-- Model of tweet_from_xhr_json from src/tweet_db.py. -/
def tweet_from_xhr_json (d : XhrData) : Tweet :=
  { tweet_id := xhrTweetId d
    author := if (xhrScreenName d).isEmpty then "" else "@" ++ xhrScreenName d
    author_name := pyOrStr ((d.user.getD {}).name.getD "") (d.user_name.getD "")
    content := d.text.getD ""
    tweet_url := xhrTweetUrl d
    likes := d.favorite_count
    retweets := d.retweet_count
    reply_count := d.reply_count
    quote_count := d.quote_count
    user_followers := pyOrInt (d.user.getD {}).followers_count d.user_followers
    user_friends := pyOrInt (d.user.getD {}).friends_count d.user_friends
    user_description := some (pyOrStr ((d.user.getD {}).description.getD "")
      (d.user_description.getD ""))
    data_source := "xhr" }

/-- The literal searched by the tweet-id regex. -/
def statusLit : List Char := "/status/".data

/-- Model of extract_tweet_id from src/twfeed.py and src/twpost.py:
re.search for the status literal followed by one or more digits; the group
is the maximal digit run at the leftmost such position. -/
def extract_tweet_id : List Char → Option (List Char)
  | [] => none
  | c :: rest =>
    if statusLit.isPrefixOf (c :: rest) &&
        (match (c :: rest).drop 8 with | d :: _ => d.isDigit | [] => false) then
      some (((c :: rest).drop 8).takeWhile Char.isDigit)
    else extract_tweet_id rest

/-- Decidable equality for Except results, used to evaluate the model on
concrete inputs. -/
instance instDecEqExcept {ε α : Type} [DecidableEq ε] [DecidableEq α] :
    DecidableEq (Except ε α) := fun a b =>
  match a, b with
  | Except.ok x, Except.ok y =>
    if h : x = y then isTrue (by rw [h]) else isFalse (by simp [h])
  | Except.error e, Except.error f =>
    if h : e = f then isTrue (by rw [h]) else isFalse (by simp [h])
  | Except.ok _, Except.error _ => isFalse (by simp)
  | Except.error _, Except.ok _ => isFalse (by simp)

/-! ### Character-class and strip lemmas -/

lemma bool_not_false {b : Bool} (h : ¬ b = false) : b = true := by
  cases b
  · exact absurd rfl h
  · rfl

lemma statKM_not_space {c : Char} (h : isStatChar c = true ∨ isKM c = true) :
    pyIsSpace c = false := by
  by_contra hns
  have hs := bool_not_false hns
  simp only [pyIsSpace, Bool.or_eq_true, decide_eq_true_eq] at hs
  rcases hs with ((((h1 | h1) | h1) | h1) | h1) | h1 <;> subst h1 <;>
    exact absurd h (by decide)

lemma statKM_ne_at {c : Char} (h : isStatChar c = true ∨ isKM c = true) : c ≠ '@' := by
  intro he
  subst he
  exact absurd h (by decide)

lemma statKM_ne_nl {c : Char} (h : isStatChar c = true ∨ isKM c = true) : c ≠ '\n' := by
  intro he
  subst he
  exact absurd h (by decide)

lemma dropWhile_eq_self_of_all {p : Char → Bool} {l : List Char}
    (h : ∀ c ∈ l, p c = false) : l.dropWhile p = l := by
  cases l with
  | nil => rfl
  | cons a t =>
    have : ¬ p a = true := by
      rw [h a (List.mem_cons_self a t)]
      exact Bool.false_ne_true
    exact List.dropWhile_cons_of_neg this

lemma pyStrip_eq_self {l : List Char} (h : ∀ c ∈ l, pyIsSpace c = false) :
    pyStrip l = l := by
  unfold pyStrip
  rw [dropWhile_eq_self_of_all h]
  rw [dropWhile_eq_self_of_all (fun c hc => h c (List.mem_reverse.mp hc))]
  exact List.reverse_reverse l

lemma pyStrip_eq_self_ends {l : List Char}
    (hh : ∀ c, l.head? = some c → pyIsSpace c = false)
    (hl : ∀ c, l.getLast? = some c → pyIsSpace c = false) : pyStrip l = l := by
  cases l with
  | nil => rfl
  | cons a t =>
    unfold pyStrip
    have h1 : (a :: t).dropWhile pyIsSpace = a :: t := by
      have : ¬ pyIsSpace a = true := by
        rw [hh a rfl]; exact Bool.false_ne_true
      exact List.dropWhile_cons_of_neg this
    rw [h1]
    cases hr : (a :: t).reverse with
    | nil => exact absurd hr (by simp)
    | cons b u =>
      have hb : (a :: t).getLast? = some b := by
        rw [← List.head?_reverse, hr]; rfl
      have h2 : (b :: u).dropWhile pyIsSpace = b :: u := by
        have : ¬ pyIsSpace b = true := by
          rw [hl b hb]; exact Bool.false_ne_true
        exact List.dropWhile_cons_of_neg this
      rw [h2, ← hr]
      exact List.reverse_reverse _

lemma head?_dropWhile {p : Char → Bool} :
    ∀ {l : List Char} {c : Char}, (l.dropWhile p).head? = some c → p c = false := by
  intro l
  induction l with
  | nil => intro c h; simp at h
  | cons a t ih =>
    intro c h
    by_cases ha : p a = true
    · rw [List.dropWhile_cons_of_pos ha] at h
      exact ih h
    · rw [List.dropWhile_cons_of_neg ha] at h
      simp at h
      rw [← h]
      exact Bool.eq_false_iff.mpr ha

lemma getLast?_suffix {l m : List Char} (h : l <:+ m) (hne : l ≠ []) :
    m.getLast? = l.getLast? := by
  rcases h with ⟨z, hz⟩
  rw [← hz, List.getLast?_append]
  cases hl : l.getLast? with
  | none => exact absurd (List.getLast?_eq_none_iff.mp hl) hne
  | some x => rfl

lemma pyStrip_getLast? {l : List Char} {c : Char} (h : (pyStrip l).getLast? = some c) :
    pyIsSpace c = false := by
  unfold pyStrip at h
  rw [List.getLast?_reverse] at h
  exact head?_dropWhile h

lemma pyStrip_head? {l : List Char} {c : Char} (h : (pyStrip l).head? = some c) :
    pyIsSpace c = false := by
  unfold pyStrip at h
  rw [List.head?_reverse] at h
  set X := ((l.dropWhile pyIsSpace).reverse).dropWhile pyIsSpace with hX
  have hXne : X ≠ [] := by
    intro he
    rw [he] at h
    simp at h
  have hsuf : X <:+ (l.dropWhile pyIsSpace).reverse := List.dropWhile_suffix pyIsSpace
  have := getLast?_suffix hsuf hXne
  rw [← this, List.getLast?_reverse] at h
  exact head?_dropWhile h

lemma pyStrip_idem (l : List Char) : pyStrip (pyStrip l) = pyStrip l :=
  pyStrip_eq_self_ends (fun c h => pyStrip_head? h) (fun c h => pyStrip_getLast? h)

lemma pyStrip_mem {l : List Char} {c : Char} (h : c ∈ pyStrip l) : c ∈ l := by
  unfold pyStrip at h
  rw [List.mem_reverse] at h
  have h1 := (@List.dropWhile_sublist Char ((l.dropWhile pyIsSpace).reverse) pyIsSpace).mem h
  rw [List.mem_reverse] at h1
  exact (@List.dropWhile_sublist Char l pyIsSpace).mem h1

/-! ### splitNl and joinNl lemmas -/

lemma splitNl_ne_nil : ∀ l : List Char, splitNl l ≠ [] := by
  intro l
  cases l with
  | nil => simp [splitNl]
  | cons c rest =>
    simp only [splitNl]
    by_cases hc : c = '\n'
    · rw [if_pos hc]; simp
    · rw [if_neg hc]
      cases splitNl rest with
      | nil => simp
      | cons a t => simp

lemma splitNl_cons_nl (rest : List Char) : splitNl ('\n' :: rest) = [] :: splitNl rest := by
  simp [splitNl]

lemma splitNl_cons_ne {c : Char} (rest : List Char) (hc : c ≠ '\n') {a : List Char}
    {t : List (List Char)} (hr : splitNl rest = a :: t) :
    splitNl (c :: rest) = (c :: a) :: t := by
  simp only [splitNl]
  rw [if_neg hc, hr]

lemma mem_splitNl_no_nl : ∀ (l : List Char) (a : List Char), a ∈ splitNl l → '\n' ∉ a := by
  intro l
  induction l with
  | nil =>
    intro a ha
    simp [splitNl] at ha
    subst ha
    simp
  | cons c rest ih =>
    intro a ha
    by_cases hc : c = '\n'
    · subst hc
      rw [splitNl_cons_nl] at ha
      rcases List.mem_cons.mp ha with h | h
      · subst h; simp
      · exact ih a h
    · cases hr : splitNl rest with
      | nil => exact absurd hr (splitNl_ne_nil rest)
      | cons b t =>
        rw [splitNl_cons_ne rest hc hr] at ha
        rcases List.mem_cons.mp ha with h | h
        · subst h
          intro hmem
          rcases List.mem_cons.mp hmem with h1 | h1
          · exact hc h1.symm
          · exact ih b (by rw [hr]; exact List.mem_cons_self b t) h1
        · exact ih a (by rw [hr]; exact List.mem_cons_of_mem b h)

lemma splitNl_no_nl : ∀ {l : List Char}, '\n' ∉ l → splitNl l = [l] := by
  intro l
  induction l with
  | nil => intro _; rfl
  | cons c rest ih =>
    intro h
    have hc : c ≠ '\n' := fun he => h (he ▸ List.mem_cons_self c rest)
    have hr : '\n' ∉ rest := fun hm => h (List.mem_cons_of_mem c hm)
    exact splitNl_cons_ne rest hc (ih hr)

lemma splitNl_append_nl : ∀ (a m : List Char), '\n' ∉ a →
    splitNl (a ++ '\n' :: m) = a :: splitNl m := by
  intro a
  induction a with
  | nil => intro m _; exact splitNl_cons_nl m
  | cons c t ih =>
    intro m h
    have hc : c ≠ '\n' := fun he => h (he ▸ List.mem_cons_self c t)
    have ht : '\n' ∉ t := fun hm => h (List.mem_cons_of_mem c hm)
    rw [List.cons_append]
    exact splitNl_cons_ne (t ++ '\n' :: m) hc (ih m ht)

lemma splitNl_joinNl : ∀ (L : List (List Char)), (∀ a ∈ L, '\n' ∉ a) → L ≠ [] →
    splitNl (joinNl L) = L
  | [] => fun _ hne => absurd rfl hne
  | [a] => fun h _ => by
      simp only [joinNl]
      exact splitNl_no_nl (h a (List.mem_singleton.mpr rfl))
  | a :: b :: rest => fun h _ => by
      simp only [joinNl]
      rw [splitNl_append_nl a (joinNl (b :: rest)) (h a (List.mem_cons_self a _))]
      rw [splitNl_joinNl (b :: rest) (fun x hx => h x (List.mem_cons_of_mem a hx))
        (List.cons_ne_nil b rest)]

lemma joinNl_ne_nil : ∀ (L : List (List Char)), (∀ a ∈ L, a ≠ []) → L ≠ [] →
    joinNl L ≠ []
  | [] => fun _ hne => absurd rfl hne
  | [a] => fun h _ => by simpa [joinNl] using h a (List.mem_singleton.mpr rfl)
  | a :: b :: rest => fun _ _ => by simp [joinNl]

lemma mem_of_getLast?List : ∀ {L : List (List Char)} {b : List Char},
    L.getLast? = some b → b ∈ L := by
  intro L
  induction L with
  | nil => intro b h; simp at h
  | cons a t ih =>
    intro b h
    cases t with
    | nil =>
      simp at h
      subst h
      exact List.mem_singleton.mpr rfl
    | cons c u =>
      rw [List.getLast?_cons_cons] at h
      exact List.mem_cons_of_mem a (ih h)

lemma joinNl_getLast? : ∀ (L : List (List Char)) (b : List Char),
    L.getLast? = some b → (∀ a ∈ L, a ≠ []) → (joinNl L).getLast? = b.getLast?
  | [] => fun b h _ => by simp at h
  | [a] => fun b h _ => by
      simp at h
      subst h
      rfl
  | a :: c :: rest => fun b h hne => by
      have htail : ∀ x ∈ c :: rest, x ≠ [] := fun x hx => hne x (List.mem_cons_of_mem a hx)
      have h2 : (c :: rest).getLast? = some b := by
        rw [← @List.getLast?_cons_cons (List Char) a c rest]; exact h
      have hJ : joinNl (c :: rest) ≠ [] :=
        joinNl_ne_nil (c :: rest) htail (List.cons_ne_nil c rest)
      have ih := joinNl_getLast? (c :: rest) b h2 htail
      simp only [joinNl]
      rw [List.getLast?_append]
      have hstep : ('\n' :: joinNl (c :: rest)).getLast? = (joinNl (c :: rest)).getLast? := by
        cases hJ' : joinNl (c :: rest) with
        | nil => exact absurd hJ' hJ
        | cons y u => exact List.getLast?_cons_cons
      rw [hstep, ih]
      have hbne : b ≠ [] := hne b (mem_of_getLast?List h)
      cases hb : b.getLast? with
      | none => exact absurd (List.getLast?_eq_none_iff.mp hb) hbne
      | some x => rfl

lemma joinNl_head? : ∀ (a : List Char) (L : List (List Char)), a ≠ [] →
    (joinNl (a :: L)).head? = a.head?
  | a, [], _ => rfl
  | a, b :: rest, hne => by
      simp only [joinNl]
      cases a with
      | nil => exact absurd rfl hne
      | cons x t => rfl

/-! ### Classifier character lemmas -/

lemma handleSearch_eq_none : ∀ {l : List Char}, '@' ∉ l → handleSearch l = none := by
  intro l
  induction l with
  | nil => intro _; rfl
  | cons c rest ih =>
    intro h
    have hc : c ≠ '@' := fun he => h (he ▸ List.mem_cons_self c rest)
    have hr : '@' ∉ rest := fun hm => h (List.mem_cons_of_mem c hm)
    simp only [handleSearch]
    rw [if_neg hc]
    exact ih hr

lemma statsMatch_chars {l : List Char} (h : statsMatch l = true) :
    ∀ c ∈ l, isStatChar c = true ∨ isKM c = true := by
  intro x hx
  have hx' : x ∈ l.reverse := List.mem_reverse.mpr hx
  unfold statsMatch at h
  cases hr : l.reverse with
  | nil => rw [hr] at hx'; simp at hx'
  | cons c rest =>
    rw [hr] at h hx'
    simp only [statsMatchRev] at h
    by_cases hk : isKM c = true
    · rw [if_pos hk] at h
      rcases List.mem_cons.mp hx' with h1 | h1
      · subst h1; exact Or.inr hk
      · have h2 := (Bool.and_eq_true _ _).mp h
        exact Or.inl (List.all_eq_true.mp h2.2 x h1)
    · rw [if_neg hk] at h
      exact Or.inl (List.all_eq_true.mp h x hx')

lemma statsMatch_ne_nil {l : List Char} (h : statsMatch l = true) : l ≠ [] := by
  intro he
  subst he
  exact absurd h (by decide)

lemma statsMatch_no_space {l : List Char} (h : statsMatch l = true) :
    ∀ c ∈ l, pyIsSpace c = false :=
  fun c hc => statKM_not_space (statsMatch_chars h c hc)

lemma statsMatch_pyStrip {l : List Char} (h : statsMatch l = true) : pyStrip l = l :=
  pyStrip_eq_self (statsMatch_no_space h)

lemma statsMatch_no_at {l : List Char} (h : statsMatch l = true) : '@' ∉ l :=
  fun hm => statKM_ne_at (statsMatch_chars h _ hm) rfl

lemma statsMatch_handleSearch {l : List Char} (h : statsMatch l = true) :
    handleSearch l = none :=
  handleSearch_eq_none (statsMatch_no_at h)

lemma statsMatch_no_nl {l : List Char} (h : statsMatch l = true) : '\n' ∉ l :=
  fun hm => statKM_ne_nl (statsMatch_chars h _ hm) rfl

lemma digit_ne_at {c : Char} (h : c.isDigit = true) : c ≠ '@' := by
  intro he
  subst he
  exact absurd h (by decide)

lemma space_ne_at {c : Char} (h : pyIsSpace c = true) : c ≠ '@' := by
  intro he
  subst he
  exact absurd h (by decide)

lemma upper_ne_at {c : Char} (h : c.isUpper = true) : c ≠ '@' := by
  intro he
  subst he
  exact absurd h (by decide)

lemma lower_ne_at {c : Char} (h : c.isLower = true) : c ≠ '@' := by
  intro he
  subst he
  exact absurd h (by decide)

lemma timeAlt1_no_at {l : List Char} (h : timeAlt1 l = true) : '@' ∉ l := by
  intro hm
  unfold timeAlt1 at h
  have h2 := (Bool.and_eq_true _ _).mp h |>.2
  rw [← List.takeWhile_append_dropWhile Char.isDigit l] at hm
  rcases List.mem_append.mp hm with h1 | h1
  · exact digit_ne_at (List.mem_takeWhile_imp h1) rfl
  · rcases Bool.or_eq_true _ _ |>.mp h2 with h3 | h3
    · rcases Bool.or_eq_true _ _ |>.mp h3 with h4 | h4
      · rw [beq_iff_eq.mp h4] at h1; simp at h1
      · rw [beq_iff_eq.mp h4] at h1; simp at h1
    · rw [beq_iff_eq.mp h3] at h1; simp at h1

lemma timeAlt2_no_at {l : List Char} (h : timeAlt2 l = true) : '@' ∉ l := by
  intro hm
  unfold timeAlt2 at h
  have h2 := (Bool.and_eq_true _ _).mp h |>.2
  rw [← List.takeWhile_append_dropWhile Char.isDigit l] at hm
  rcases List.mem_append.mp hm with h1 | h1
  · exact digit_ne_at (List.mem_takeWhile_imp h1) rfl
  · rw [beq_iff_eq.mp h2] at h1; simp at h1

lemma timeAlt3_no_at {l : List Char} (h : timeAlt3 l = true) : '@' ∉ l := by
  intro hm
  cases l with
  | nil => simp at hm
  | cons c1 rest1 =>
    cases rest1 with
    | nil => exact absurd h (by simp [timeAlt3])
    | cons c2 rest2 =>
      cases rest2 with
      | nil => exact absurd h (by simp [timeAlt3])
      | cons c3 rest =>
        simp only [timeAlt3, Bool.and_eq_true] at h
        obtain ⟨⟨⟨hu, hl2⟩, hl3⟩, hsp, hds, hall⟩ := h
        rcases List.mem_cons.mp hm with h1 | h1
        · exact upper_ne_at hu h1.symm
        rcases List.mem_cons.mp h1 with h1 | h1
        · exact lower_ne_at hl2 h1.symm
        rcases List.mem_cons.mp h1 with h1 | h1
        · exact lower_ne_at hl3 h1.symm
        rw [← List.takeWhile_append_dropWhile pyIsSpace rest] at h1
        rcases List.mem_append.mp h1 with h4 | h4
        · exact space_ne_at (List.mem_takeWhile_imp h4) rfl
        · exact digit_ne_at (List.all_eq_true.mp hall _ h4) rfl

lemma timeAlt4_no_at {l : List Char} (h : timeAlt4 l = true) : '@' ∉ l := by
  intro hm
  unfold timeAlt4 at h
  have h2 := (Bool.and_eq_true _ _).mp h |>.2
  rw [← List.takeWhile_append_dropWhile Char.isDigit l] at hm
  rcases List.mem_append.mp hm with h1 | h1
  · exact digit_ne_at (List.mem_takeWhile_imp h1) rfl
  · cases hr : l.dropWhile Char.isDigit with
    | nil => rw [hr] at h1; simp at h1
    | cons c r2 =>
      rw [hr] at h1 h2
      simp only [timeAlt4Rest, Bool.and_eq_true] at h2
      obtain ⟨hc, _, hday⟩ := h2
      rcases List.mem_cons.mp h1 with h3 | h3
      · rw [beq_iff_eq.mp hc] at h3
        exact absurd h3.symm (by decide)
      · rw [← List.takeWhile_append_dropWhile Char.isDigit r2] at h3
        rcases List.mem_append.mp h3 with h4 | h4
        · exact digit_ne_at (List.mem_takeWhile_imp h4) rfl
        · rw [beq_iff_eq.mp hday] at h4
          simp at h4

lemma timeMatch_no_at {l : List Char} (h : timeMatch l = true) : '@' ∉ l := by
  unfold timeMatch at h
  rcases Bool.or_eq_true _ _ |>.mp h with h1 | h1
  · rcases Bool.or_eq_true _ _ |>.mp h1 with h2 | h2
    · rcases Bool.or_eq_true _ _ |>.mp h2 with h3 | h3
      · exact timeAlt1_no_at h3
      · exact timeAlt2_no_at h3
    · exact timeAlt3_no_at h2
  · exact timeAlt4_no_at h1

lemma timeMatch_handleSearch {l : List Char} (h : timeMatch l = true) :
    handleSearch l = none :=
  handleSearch_eq_none (timeMatch_no_at h)

lemma timeMatch_ne_nil {l : List Char} (h : timeMatch l = true) : l ≠ [] := by
  intro he
  subst he
  exact absurd h (by decide)

/-! ### Record and state invariants -/

/-- Invariant of an accumulated content line: stripped, non-empty, without
newlines, and neither a noise token nor a skip token. -/
def LineOK (a : List Char) : Prop :=
  pyStrip a = a ∧ a ≠ [] ∧ '\n' ∉ a ∧ a ∉ noiseTokens ∧ a ∉ skipTokens

/-- Invariant of a finished record: non-empty content, an author that starts
with the at-sign, and no noise or skip token among its content lines. -/
def TweetOK (t : Tweet) : Prop :=
  t.content ≠ "" ∧ (∃ g, t.author = String.mk ('@' :: g)) ∧
    ∀ a ∈ splitNl t.content.data, a ∉ noiseTokens ∧ a ∉ skipTokens

/-- Invariant of the loop state. -/
def StOK (st : ParseState) : Prop :=
  (∀ t ∈ st.tweets, TweetOK t) ∧ (∀ a ∈ st.contents, LineOK a) ∧
    ∀ t, st.current = some t → ∃ g, t.author = String.mk ('@' :: g)

lemma fillCount_author (t : Tweet) (c : Int) : (fillCount t c).author = t.author := by
  unfold fillCount
  split_ifs <;> rfl

lemma fillCount_author_name (t : Tweet) (c : Int) :
    (fillCount t c).author_name = t.author_name := by
  unfold fillCount
  split_ifs <;> rfl

lemma strip_self_head {a : List Char} {c : Char} (hs : pyStrip a = a)
    (h : a.head? = some c) : pyIsSpace c = false :=
  pyStrip_head? (by rw [hs]; exact h)

lemma strip_self_getLast {a : List Char} {c : Char} (hs : pyStrip a = a)
    (h : a.getLast? = some c) : pyIsSpace c = false :=
  pyStrip_getLast? (by rw [hs]; exact h)

lemma getLast?_of_ne_nil {L : List (List Char)} (h : L ≠ []) :
    ∃ b, L.getLast? = some b := by
  cases hb : L.getLast? with
  | none => exact absurd (List.getLast?_eq_none_iff.mp hb) h
  | some b => exact ⟨b, rfl⟩

lemma joinNl_strip_self {L : List (List Char)}
    (h : ∀ a ∈ L, pyStrip a = a ∧ a ≠ []) (hL : L ≠ []) :
    pyStrip (joinNl L) = joinNl L := by
  apply pyStrip_eq_self_ends
  · intro c hc
    cases L with
    | nil => exact absurd rfl hL
    | cons a rest =>
      have ha := h a (List.mem_cons_self a rest)
      rw [joinNl_head? a rest ha.2] at hc
      exact strip_self_head ha.1 hc
  · intro c hc
    obtain ⟨b, hb⟩ := getLast?_of_ne_nil hL
    rw [joinNl_getLast? L b hb (fun a ha => (h a ha).2)] at hc
    have hbm := mem_of_getLast?List hb
    exact strip_self_getLast (h b hbm).1 hc

lemma strmk_ne_empty {c : List Char} (h : c ≠ []) : String.mk c ≠ "" := by
  intro he
  apply h
  have := congrArg String.data he
  simpa using this

lemma flushTweets_ok {st : ParseState} (h : StOK st) : ∀ t ∈ flushTweets st, TweetOK t := by
  obtain ⟨htw, hct, hcur⟩ := h
  cases hc : st.current with
  | none => simp only [flushTweets, hc]; exact htw
  | some t =>
    simp only [flushTweets, hc]
    by_cases he : st.contents = []
    · rw [if_pos he]; exact htw
    · rw [if_neg he]
      have hlk : ∀ a ∈ st.contents, pyStrip a = a ∧ a ≠ [] :=
        fun a ha => ⟨(hct a ha).1, (hct a ha).2.1⟩
      have hjoin : pyStrip (joinNl st.contents) = joinNl st.contents :=
        joinNl_strip_self hlk he
      by_cases hz : pyStrip (joinNl st.contents) = []
      · rw [if_pos hz]; exact htw
      · rw [if_neg hz]
        intro x hx
        rcases List.mem_append.mp hx with hx1 | hx1
        · exact htw x hx1
        · rw [List.mem_singleton] at hx1
          subst hx1
          have hsplit : splitNl (pyStrip (joinNl st.contents)) = st.contents := by
            rw [hjoin]
            exact splitNl_joinNl st.contents (fun a ha => (hct a ha).2.2.1) he
          refine ⟨strmk_ne_empty hz, ?_, ?_⟩
          · obtain ⟨g, hg⟩ := hcur t hc
            exact ⟨g, by simpa using hg⟩
          · intro a ha
            simp only [String.data] at ha
            rw [hsplit] at ha
            exact ⟨(hct a ha).2.2.2.1, (hct a ha).2.2.2.2⟩

lemma parse_count_err {s : String} {e : String} (h : parse_count s = Except.error e) :
    e = "OverflowError" := by
  unfold parse_count at h
  split at h
  · cases h
  · split at h
    · cases h
    · split at h
      · cases h
      · injection h with h
        exact h.symm
      · cases h

lemma afterHandle_StOK {lineRaw : List Char} {st st' : ParseState}
    (hok : StOK st) (hnl : '\n' ∉ lineRaw)
    (hskip : ¬(pyStrip lineRaw = [] ∨ pyStrip lineRaw ∈ skipTokens))
    (h : afterHandle (pyStrip lineRaw) st = Except.ok st') : StOK st' := by
  obtain ⟨htw, hct, hcur⟩ := hok
  unfold afterHandle at h
  cases hc : st.current with
  | none =>
    rw [hc] at h
    injection h with h
    subst h
    exact ⟨htw, hct, hcur⟩
  | some t =>
    rw [hc] at h
    dsimp only at h
    by_cases hs : statsMatch (pyStrip lineRaw) = true
    · rw [if_pos hs] at h
      cases hp : parse_count (String.mk (pyStrip lineRaw)) with
      | error e => rw [hp] at h; cases h
      | ok o =>
        rw [hp] at h
        cases o with
        | none =>
          injection h with h
          subst h
          exact ⟨htw, hct, hcur⟩
        | some count =>
          injection h with h
          subst h
          refine ⟨htw, hct, ?_⟩
          intro t' ht'
          injection ht' with ht'
          obtain ⟨g, hg⟩ := hcur t hc
          exact ⟨g, by rw [← ht', fillCount_author, hg]⟩
    · rw [if_neg hs] at h
      by_cases htm : timeMatch (pyStrip lineRaw) = true
      · rw [if_pos htm] at h
        injection h with h
        subst h
        exact ⟨htw, hct, hcur⟩
      · rw [if_neg htm] at h
        by_cases hn : pyStrip lineRaw ∈ noiseTokens
        · rw [if_pos hn] at h
          injection h with h
          subst h
          exact ⟨htw, hct, hcur⟩
        · rw [if_neg hn] at h
          injection h with h
          subst h
          refine ⟨htw, ?_, ?_⟩
          · intro a ha
            rcases List.mem_append.mp ha with h1 | h1
            · exact hct a h1
            · rw [List.mem_singleton] at h1
              subst h1
              push_neg at hskip
              exact ⟨pyStrip_idem lineRaw, hskip.1, fun hm => hnl (pyStrip_mem hm),
                hn, hskip.2⟩
          · intro t1 ht1
            injection ht1 with ht1
            subst ht1
            exact hcur t hc

lemma stepE_StOK {prev : Option (List Char)} {lineRaw : List Char} {st st' : ParseState}
    (hok : StOK st) (hnl : '\n' ∉ lineRaw)
    (h : stepE prev lineRaw st = Except.ok st') : StOK st' := by
  unfold stepE at h
  by_cases hskip : pyStrip lineRaw = [] ∨ pyStrip lineRaw ∈ skipTokens
  · rw [if_pos hskip] at h
    injection h with h
    subst h
    exact hok
  · rw [if_neg hskip] at h
    cases hhs : handleSearch (pyStrip lineRaw) with
    | some grp =>
      rw [hhs] at h
      dsimp only at h
      by_cases hg : handleGuard prev (pyStrip lineRaw) = true
      · rw [if_pos hg] at h
        injection h with h
        subst h
        refine ⟨flushTweets_ok ⟨hok.1, hok.2.1, hok.2.2⟩, ?_, ?_⟩
        · intro a ha
          simp at ha
        · intro t ht
          injection ht with ht
          exact ⟨grp, by rw [← ht]; rfl⟩
      · rw [if_neg hg] at h
        exact afterHandle_StOK hok hnl hskip h
    | none =>
      rw [hhs] at h
      exact afterHandle_StOK hok hnl hskip h

lemma parseLoop_StOK : ∀ (ls : List (List Char)) (prev : Option (List Char))
    (st st' : ParseState), StOK st → (∀ l ∈ ls, '\n' ∉ l) →
    parseLoop ls prev st = Except.ok st' → StOK st' := by
  intro ls
  induction ls with
  | nil =>
    intro prev st st' hok _ h
    unfold parseLoop at h
    injection h with h
    subst h
    exact hok
  | cons l rest ih =>
    intro prev st st' hok hnl h
    unfold parseLoop at h
    cases hs : stepE prev l st with
    | ok st1 =>
      rw [hs] at h
      exact ih (some l) st1 st' (stepE_StOK hok (hnl l (List.mem_cons_self l rest)) hs)
        (fun x hx => hnl x (List.mem_cons_of_mem l hx)) h
    | error e =>
      rw [hs] at h
      cases h

lemma parse_ok_TweetOK {s : String} {l : List Tweet}
    (h : parse_ocr_to_tweets s = Except.ok l) : ∀ t ∈ l, TweetOK t := by
  unfold parse_ocr_to_tweets at h
  cases hl : parseLoop (splitNl (pyStrip s.data)) none
      { tweets := [], current := none, contents := [] } with
  | ok st =>
    rw [hl] at h
    injection h with h
    subst h
    have hst : StOK st := by
      apply parseLoop_StOK _ none _ st _ (fun x hx => mem_splitNl_no_nl _ x hx) hl
      refine ⟨?_, ?_, ?_⟩
      · intro t ht; simp at ht
      · intro a ha; simp at ha
      · intro t ht; cases ht
    exact flushTweets_ok hst
  | error e =>
    rw [hl] at h
    cases h

/-! ### Totality and error-shape lemmas -/

lemma afterHandle_shape (line : List Char) (st : ParseState) :
    (∃ st', afterHandle line st = Except.ok st') ∨
      afterHandle line st = Except.error "OverflowError" := by
  unfold afterHandle
  cases hc : st.current with
  | none => exact Or.inl ⟨st, rfl⟩
  | some t =>
    dsimp only
    by_cases hs : statsMatch line = true
    · rw [if_pos hs]
      cases hp : parse_count (String.mk line) with
      | error e =>
        right
        rw [parse_count_err hp]
      | ok o =>
        left
        cases o with
        | none => exact ⟨st, rfl⟩
        | some count => exact ⟨_, rfl⟩
    · rw [if_neg hs]
      by_cases htm : timeMatch line = true
      · rw [if_pos htm]
        exact Or.inl ⟨st, rfl⟩
      · rw [if_neg htm]
        by_cases hn : line ∈ noiseTokens
        · rw [if_pos hn]
          exact Or.inl ⟨st, rfl⟩
        · rw [if_neg hn]
          exact Or.inl ⟨_, rfl⟩

lemma stepE_shape (prev : Option (List Char)) (lineRaw : List Char) (st : ParseState) :
    (∃ st', stepE prev lineRaw st = Except.ok st') ∨
      stepE prev lineRaw st = Except.error "OverflowError" := by
  unfold stepE
  by_cases hskip : pyStrip lineRaw = [] ∨ pyStrip lineRaw ∈ skipTokens
  · rw [if_pos hskip]
    exact Or.inl ⟨st, rfl⟩
  · rw [if_neg hskip]
    cases hhs : handleSearch (pyStrip lineRaw) with
    | some grp =>
      dsimp only
      by_cases hg : handleGuard prev (pyStrip lineRaw) = true
      · rw [if_pos hg]
        exact Or.inl ⟨_, rfl⟩
      · rw [if_neg hg]
        exact afterHandle_shape _ st
    | none => exact afterHandle_shape _ st

lemma parseLoop_shape : ∀ (ls : List (List Char)) (prev : Option (List Char))
    (st : ParseState),
    (∃ st', parseLoop ls prev st = Except.ok st') ∨
      parseLoop ls prev st = Except.error "OverflowError" := by
  intro ls
  induction ls with
  | nil => intro prev st; exact Or.inl ⟨st, rfl⟩
  | cons l rest ih =>
    intro prev st
    unfold parseLoop
    rcases stepE_shape prev l st with ⟨st1, h1⟩ | h1
    · rw [h1]
      exact ih (some l) st1
    · rw [h1]
      exact Or.inr rfl

lemma stepE_noqual_none {prev : Option (List Char)} {lineRaw : List Char}
    {tw : List Tweet} {cs : List (List Char)}
    (h : qualifies prev lineRaw = false) :
    stepE prev lineRaw ⟨tw, none, cs⟩ = Except.ok ⟨tw, none, cs⟩ := by
  unfold stepE
  by_cases hskip : pyStrip lineRaw = [] ∨ pyStrip lineRaw ∈ skipTokens
  · rw [if_pos hskip]
  · rw [if_neg hskip]
    unfold qualifies at h
    cases hhs : handleSearch (pyStrip lineRaw) with
    | some grp =>
      rw [hhs] at h
      dsimp only at h ⊢
      rw [if_neg (by simp [h])]
      rfl
    | none => rfl

lemma parseLoop_noqual : ∀ (ls : List (List Char)) (prev : Option (List Char))
    (tw : List Tweet) (cs : List (List Char)),
    hasHandleStart prev ls = false →
    parseLoop ls prev ⟨tw, none, cs⟩ = Except.ok ⟨tw, none, cs⟩ := by
  intro ls
  induction ls with
  | nil => intro prev tw cs _; rfl
  | cons l rest ih =>
    intro prev tw cs h
    unfold hasHandleStart at h
    have h1 : qualifies prev l = false ∧ hasHandleStart (some l) rest = false := by
      constructor
      · cases hq : qualifies prev l
        · rfl
        · rw [hq] at h; simp at h
      · cases hr : hasHandleStart (some l) rest
        · rfl
        · rw [hr] at h; simp at h
    unfold parseLoop
    rw [stepE_noqual_none h1.1]
    exact ih (some l) tw cs h1.2

/-! ### Claim theorems, first batch -/

/-- Claim C3 (confirmed): no record returned by parse_ocr_to_tweets has a
content line equal to a noise token or to a skip token: such lines are
dropped before content accumulation. -/
theorem C3_noise_dropped (s : String) (l : List Tweet)
    (h : parse_ocr_to_tweets s = Except.ok l) (t : Tweet) (ht : t ∈ l)
    (a : List Char) (ha : a ∈ splitNl t.content.data) :
    a ∉ noiseTokens ∧ a ∉ skipTokens :=
  (parse_ok_TweetOK h t ht).2.2 a ha

/-- Witness for C3 at a concrete input. -/
theorem C3_noise_dropped_witness : "hi".data ∉ noiseTokens ∧ "hi".data ∉ skipTokens :=
  C3_noise_dropped "@a\nhi" [{ author := "@a", author_name := "", content := "hi" }]
    (by decide) { author := "@a", author_name := "", content := "hi" }
    (List.mem_singleton.mpr rfl) "hi".data (by decide)

/-- Claim C9 (confirmed): every record returned by parse_ocr_to_tweets has
non-empty content and an author field that begins with the at-sign. -/
theorem C9_record_invariant (s : String) (l : List Tweet)
    (h : parse_ocr_to_tweets s = Except.ok l) (t : Tweet) (ht : t ∈ l) :
    t.content ≠ "" ∧ t.author.data.head? = some '@' := by
  obtain ⟨h1, ⟨g, hg⟩, _⟩ := parse_ok_TweetOK h t ht
  exact ⟨h1, by rw [hg]; rfl⟩

/-- Witness for C9 at a concrete input. -/
theorem C9_record_invariant_witness :
    ({ author := "@b", author_name := "", content := "yo" } : Tweet).content ≠ "" ∧
      ({ author := "@b", author_name := "", content := "yo" } : Tweet).author.data.head? =
        some '@' :=
  C9_record_invariant "@b\nyo" [{ author := "@b", author_name := "", content := "yo" }]
    (by decide) { author := "@b", author_name := "", content := "yo" }
    (List.mem_singleton.mpr rfl)

/-- Claim C4 (confirmed): parse_ocr_to_tweets is deterministic.  The embedding
is a pure function of the input text (the source consults no ambient state:
only regular expressions and string operations), so two runs on the same text
give the same ordered records with all fields equal. -/
theorem C4_deterministic (s : String) :
    parse_ocr_to_tweets s = parse_ocr_to_tweets s := rfl

/-- Claim C7 (confirmed): ensure_chrome_cdp returns True immediately without a
restart when the port is already open, and otherwise restarts Chrome and
polls exactly three times, succeeding exactly when one of the three polls
sees the port open; the retry count is the fixed constant three. -/
theorem C7_bounded_polls (portOpen : Bool) (poll : Nat → Bool) :
    ensure_chrome_cdp portOpen poll =
      (portOpen || (poll 0 || (poll 1 || poll 2)), !portOpen) := by
  cases portOpen with
  | true => rfl
  | false =>
    show (pollFrom poll 0 3, true) = _
    have h3 : pollFrom poll 0 3 = (poll 0 || (poll 1 || poll 2)) := by
      show (if poll 0 then true
            else if poll 1 then true
            else if poll 2 then true else false) = _
      cases poll 0 <;> cases poll 1 <;> cases poll 2 <;> rfl
    rw [h3]
    rfl

/-- Claim C5, amended (corrected): parse_ocr_to_tweets either returns a list
or raises OverflowError (the only escaping exception, from a stat line whose
value overflows the float range); when no line qualifies as a handle line it
returns the empty list. -/
theorem C5_total_or_overflow (s : String) :
    ((∃ l, parse_ocr_to_tweets s = Except.ok l) ∨
      parse_ocr_to_tweets s = Except.error "OverflowError") ∧
    (hasHandleStart none (splitNl (pyStrip s.data)) = false →
      parse_ocr_to_tweets s = Except.ok []) := by
  constructor
  · unfold parse_ocr_to_tweets
    rcases parseLoop_shape (splitNl (pyStrip s.data)) none
        { tweets := [], current := none, contents := [] } with ⟨st1, h1⟩ | h1
    · rw [h1]
      exact Or.inl ⟨flushTweets st1, rfl⟩
    · rw [h1]
      exact Or.inr rfl
  · intro h
    unfold parse_ocr_to_tweets
    rw [parseLoop_noqual _ none [] [] h]
    rfl

/-- Witness for C5 at a concrete input with no handle line. -/
theorem C5_total_or_overflow_witness : parse_ocr_to_tweets "hi there" = Except.ok [] :=
  (C5_total_or_overflow "hi there").2 (by decide)

set_option maxRecDepth 40000 in
/-- Counterexample to C5 as stated: the parser raises OverflowError on a
screen text whose stat line is a 310-digit number, because parse_count calls
int() on an infinite float and its except clause does not catch
OverflowError. -/
theorem C5_counterexample :
    parse_ocr_to_tweets ("@a\nhi\n1" ++ String.mk (List.replicate 309 '0')) =
      Except.error "OverflowError" := by decide

/-! ### Claims C8 and C6 -/

/-- Claim C8, amended (corrected): parse_count reports failure as None for
the empty string and for any input whose processed text fails the float
conversion; the only exception it can raise is OverflowError, which escapes
exactly from the int() of an infinite float value (such as the input inf). -/
theorem C8_parse_count_none (s : String) :
    (∀ e, parse_count s = Except.error e → e = "OverflowError") ∧
    (s = "" → parse_count s = Except.ok none) ∧
    (pyFloatParse (countCore (pyTransform s)) = none → parse_count s = Except.ok none) := by
  refine ⟨fun e he => parse_count_err he, ?_, ?_⟩
  · intro h
    subst h
    rfl
  · intro h
    unfold parse_count
    by_cases hd : s.data = []
    · rw [if_pos hd]
    · rw [if_neg hd, h]

/-- Witness for C8 at a concrete non-numeric input. -/
theorem C8_parse_count_none_witness : parse_count "abc" = Except.ok none :=
  (C8_parse_count_none "abc").2.2 (by decide)

/-- Counterexample to C8 as stated: parse_count raises OverflowError on the
input inf (float accepts it as infinity and int() of infinity raises an
OverflowError that the except clause does not catch). -/
theorem C8_counterexample : parse_count "inf" = Except.error "OverflowError" := by decide

/-- Claim C6, amended (corrected): a line matching the timestamp pattern is
skipped, leaving the loop state unchanged, provided it does not also match
the stats pattern while a record is open; a line such as 5m matches both
patterns and the stats branch runs first. -/
theorem C6_timestamp_skipped (prev : Option (List Char)) (lineRaw : List Char)
    (st : ParseState) (ht : timeMatch (pyStrip lineRaw) = true)
    (hs : statsMatch (pyStrip lineRaw) = false ∨ st.current = none) :
    stepE prev lineRaw st = Except.ok st := by
  unfold stepE
  have hne : pyStrip lineRaw ≠ [] := timeMatch_ne_nil ht
  have hskip : ¬(pyStrip lineRaw = [] ∨ pyStrip lineRaw ∈ skipTokens) := by
    rintro (h1 | h1)
    · exact hne h1
    · simp only [skipTokens, List.mem_cons] at h1
      rcases h1 with h2 | h2 | h2 | h2 | h2
      · rw [h2] at ht; exact absurd ht (by decide)
      · rw [h2] at ht; exact absurd ht (by decide)
      · rw [h2] at ht; exact absurd ht (by decide)
      · rw [h2] at ht; exact absurd ht (by decide)
      · simp at h2
  rw [if_neg hskip]
  rw [timeMatch_handleSearch ht]
  unfold afterHandle
  cases hc : st.current with
  | none => rfl
  | some t =>
    dsimp only
    have hs' : statsMatch (pyStrip lineRaw) = false := by
      rcases hs with h1 | h1
      · exact h1
      · rw [hc] at h1; cases h1
    rw [if_neg (by simp [hs']), if_pos ht]

/-- Witness for C6 at a concrete timestamp line. -/
theorem C6_timestamp_skipped_witness :
    stepE none "3h".data { tweets := [], current := none, contents := [] } =
      Except.ok { tweets := [], current := none, contents := [] } :=
  C6_timestamp_skipped none "3h".data { tweets := [], current := none, contents := [] }
    (by decide) (Or.inl (by decide))

/-- Counterexample to C6 as stated: the line 5m matches the timestamp
pattern, yet with an open record it is consumed as a stat line and fills the
views field with 5000000 (parse_count reads 5M). -/
theorem C6_counterexample :
    timeMatch (pyStrip "5m".data) = true ∧
      parse_ocr_to_tweets "@a\nhi\n5m" =
        Except.ok [{ author := "@a", author_name := "", content := "hi",
                     views := some 5000000 }] := by
  constructor
  · decide
  · decide

/-! ### Claim C1 -/

lemma stepE_stats (prev : Option (List Char)) (lineRaw : List Char)
    (tw : List Tweet) (t : Tweet) (cs : List (List Char)) (c : Int)
    (hstrip : pyStrip lineRaw = lineRaw)
    (hs : statsMatch lineRaw = true)
    (hp : parse_count (String.mk lineRaw) = Except.ok (some c)) :
    stepE prev lineRaw ⟨tw, some t, cs⟩ =
      Except.ok ⟨tw, some (fillCount t c), cs⟩ := by
  unfold stepE
  rw [hstrip]
  have hskip : ¬(lineRaw = [] ∨ lineRaw ∈ skipTokens) := by
    rintro (hz | hz)
    · exact statsMatch_ne_nil hs hz
    · simp only [skipTokens, List.mem_cons] at hz
      rcases hz with h2 | h2 | h2 | h2 | h2
      · rw [h2] at hs; exact absurd hs (by decide)
      · rw [h2] at hs; exact absurd hs (by decide)
      · rw [h2] at hs; exact absurd hs (by decide)
      · rw [h2] at hp
        have hpd : parse_count (String.mk "...".data) = Except.ok none := by decide
        rw [hpd] at hp
        injection hp with hp
        exact Option.noConfusion hp
      · simp at h2
  rw [if_neg hskip]
  rw [statsMatch_handleSearch hs]
  unfold afterHandle
  dsimp only
  rw [if_pos hs, hp]

/-- Counterexample to C1 as stated: with a single numeric line 50 after a
record opens, the parsed count fills likes, not views, because views only
accepts counts greater than 100. -/
theorem C1_counterexample :
    parse_ocr_to_tweets "@a\nhello\n50" =
      Except.ok [{ author := "@a", author_name := "", content := "hello",
                   likes := some 50 }] := by decide

/-- Claim C1, amended (corrected): stat lines are attributed in first-seen
order subject to the views threshold: the first parsed count fills views only
when it exceeds 100; with views filled, the next count fills likes, and the
next retweets.  For any record followed by three stat lines whose first
count exceeds 100, the three counts land in views, likes and retweets in
that order. -/
theorem C1_first_seen_order (s1 s2 s3 : List Char) (c1 c2 c3 : Int)
    (h1 : statsMatch s1 = true) (h2 : statsMatch s2 = true) (h3 : statsMatch s3 = true)
    (p1 : parse_count (String.mk s1) = Except.ok (some c1))
    (p2 : parse_count (String.mk s2) = Except.ok (some c2))
    (p3 : parse_count (String.mk s3) = Except.ok (some c3))
    (hc : 100 < c1) :
    parse_ocr_to_tweets (String.mk (joinNl ["@a".data, "hello".data, s1, s2, s3])) =
      Except.ok [{ author := "@a", author_name := "", content := "hello",
                   likes := some c2, retweets := some c3, views := some c1 }] := by
  have hmem : ∀ a ∈ ["@a".data, "hello".data, s1, s2, s3], pyStrip a = a ∧ a ≠ [] := by
    intro a ha
    rcases List.mem_cons.mp ha with h | ha
    · subst h; exact ⟨by decide, by decide⟩
    rcases List.mem_cons.mp ha with h | ha
    · subst h; exact ⟨by decide, by decide⟩
    rcases List.mem_cons.mp ha with h | ha
    · subst h; exact ⟨statsMatch_pyStrip h1, statsMatch_ne_nil h1⟩
    rcases List.mem_cons.mp ha with h | ha
    · subst h; exact ⟨statsMatch_pyStrip h2, statsMatch_ne_nil h2⟩
    rcases List.mem_cons.mp ha with h | ha
    · subst h; exact ⟨statsMatch_pyStrip h3, statsMatch_ne_nil h3⟩
    · simp at ha
  have hnonl : ∀ a ∈ ["@a".data, "hello".data, s1, s2, s3], '\n' ∉ a := by
    intro a ha
    rcases List.mem_cons.mp ha with h | ha
    · subst h; decide
    rcases List.mem_cons.mp ha with h | ha
    · subst h; decide
    rcases List.mem_cons.mp ha with h | ha
    · subst h; exact statsMatch_no_nl h1
    rcases List.mem_cons.mp ha with h | ha
    · subst h; exact statsMatch_no_nl h2
    rcases List.mem_cons.mp ha with h | ha
    · subst h; exact statsMatch_no_nl h3
    · simp at ha
  have hstripJ : pyStrip (joinNl ["@a".data, "hello".data, s1, s2, s3]) =
      joinNl ["@a".data, "hello".data, s1, s2, s3] :=
    joinNl_strip_self hmem (by simp)
  have hsplitJ : splitNl (joinNl ["@a".data, "hello".data, s1, s2, s3]) =
      ["@a".data, "hello".data, s1, s2, s3] :=
    splitNl_joinNl _ hnonl (by simp)
  have e1 : stepE none "@a".data { tweets := [], current := none, contents := [] } =
      Except.ok { tweets := [],
                  current := some { author := "@a", author_name := "", content := "" },
                  contents := [] } := by decide
  have e2 : stepE (some "@a".data) "hello".data
      { tweets := [],
        current := some { author := "@a", author_name := "", content := "" },
        contents := [] } =
      Except.ok { tweets := [],
                  current := some { author := "@a", author_name := "", content := "" },
                  contents := ["hello".data] } := by decide
  have ht1 : fillCount { author := "@a", author_name := "", content := "" } c1 =
      { author := "@a", author_name := "", content := "", views := some c1 } := by
    unfold fillCount
    rw [if_pos ⟨rfl, hc⟩]
  have ht2 : fillCount { author := "@a", author_name := "", content := "",
                         views := some c1 } c2 =
      { author := "@a", author_name := "", content := "", views := some c1,
        likes := some c2 } := by
    unfold fillCount
    rw [if_neg (by simp), if_pos rfl]
  have ht3 : fillCount { author := "@a", author_name := "", content := "",
                         views := some c1, likes := some c2 } c3 =
      { author := "@a", author_name := "", content := "", views := some c1,
        likes := some c2, retweets := some c3 } := by
    unfold fillCount
    rw [if_neg (by simp), if_neg (by simp), if_pos rfl]
  have e3 := stepE_stats (some "hello".data) s1 []
    { author := "@a", author_name := "", content := "" }
    ["hello".data] c1 (statsMatch_pyStrip h1) h1 p1
  rw [ht1] at e3
  have e4 := stepE_stats (some s1) s2 []
    { author := "@a", author_name := "", content := "", views := some c1 }
    ["hello".data] c2 (statsMatch_pyStrip h2) h2 p2
  rw [ht2] at e4
  have e5 := stepE_stats (some s2) s3 []
    { author := "@a", author_name := "", content := "", views := some c1,
      likes := some c2 }
    ["hello".data] c3 (statsMatch_pyStrip h3) h3 p3
  rw [ht3] at e5
  have hloop : parseLoop ["@a".data, "hello".data, s1, s2, s3] none
      { tweets := [], current := none, contents := [] } =
      Except.ok { tweets := [],
                  current := some { author := "@a", author_name := "", content := "",
                                    views := some c1, likes := some c2,
                                    retweets := some c3 },
                  contents := ["hello".data] } := by
    simp only [parseLoop, e1, e2, e3, e4, e5]
  have hflush : flushTweets { tweets := [],
                              current := some { author := "@a", author_name := "",
                                                content := "", views := some c1,
                                                likes := some c2, retweets := some c3 },
                              contents := ["hello".data] } =
      [{ author := "@a", author_name := "", content := "hello",
         likes := some c2, retweets := some c3, views := some c1 }] := by
    unfold flushTweets
    dsimp only
    rw [if_neg (by decide), if_neg (by decide)]
    rfl
  unfold parse_ocr_to_tweets
  have hdata : (String.mk (joinNl ["@a".data, "hello".data, s1, s2, s3])).data =
      joinNl ["@a".data, "hello".data, s1, s2, s3] := rfl
  rw [hdata, hstripJ, hsplitJ, hloop]
  dsimp only
  rw [hflush]

/-- Witness for C1 at concrete stat lines 200, 3, 4. -/
theorem C1_first_seen_order_witness :
    parse_ocr_to_tweets (String.mk (joinNl ["@a".data, "hello".data, "200".data,
        "3".data, "4".data])) =
      Except.ok [{ author := "@a", author_name := "", content := "hello",
                   likes := some 3, retweets := some 4, views := some 200 }] :=
  C1_first_seen_order "200".data "3".data "4".data 200 3 4 (by decide) (by decide)
    (by decide) (by decide) (by decide) (by decide) (by decide)

/-! ### Claim C2 -/

lemma afterHandle_keep (line : List Char) (st : ParseState) :
    afterHandle line st = Except.error "OverflowError" ∨
    ∃ st', afterHandle line st = Except.ok st' ∧ st'.tweets = st.tweets ∧
      st'.current.map Tweet.author = st.current.map Tweet.author ∧
      st'.current.map Tweet.author_name = st.current.map Tweet.author_name := by
  unfold afterHandle
  cases hc : st.current with
  | none => exact Or.inr ⟨st, rfl, rfl, by rw [hc], by rw [hc]⟩
  | some t =>
    dsimp only
    by_cases hs : statsMatch line = true
    · rw [if_pos hs]
      cases hp : parse_count (String.mk line) with
      | error e =>
        left
        rw [parse_count_err hp]
      | ok o =>
        right
        cases o with
        | none => exact ⟨st, rfl, rfl, by rw [hc], by rw [hc]⟩
        | some count =>
          refine ⟨_, rfl, rfl, ?_, ?_⟩
          · show (some (fillCount t count)).map Tweet.author = (some t).map Tweet.author
            simp [fillCount_author]
          · show (some (fillCount t count)).map Tweet.author_name =
              (some t).map Tweet.author_name
            simp [fillCount_author_name]
    · rw [if_neg hs]
      by_cases htm : timeMatch line = true
      · rw [if_pos htm]
        exact Or.inr ⟨st, rfl, rfl, by rw [hc], by rw [hc]⟩
      · rw [if_neg htm]
        by_cases hn : line ∈ noiseTokens
        · rw [if_pos hn]
          exact Or.inr ⟨st, rfl, rfl, by rw [hc], by rw [hc]⟩
        · rw [if_neg hn]
          exact Or.inr ⟨_, rfl, rfl, rfl, rfl⟩

/-- Counterexample to C2 as stated: the line x at-b y contains the handle
at-b, yet it starts no new record because it neither begins with the
at-sign, nor contains a middle dot, nor follows a blank line; it is instead
accumulated as content of the open record. -/
theorem C2_counterexample :
    parse_ocr_to_tweets "@a\nhello\nx @b y\nmore" =
      Except.ok [{ author := "@a", author_name := "",
                   content := "hello\nx @b y\nmore" }] := by decide

/-- Claim C2, amended (corrected): a line starts a new record exactly when
its stripped form contains an at-handle and additionally starts with the
at-sign, contains a middle dot, or follows a blank raw line; at such a line
the open record is closed (appended, when it has non-empty content, by the
flush) and a fresh record with empty content begins.  At every other line
the finished list and the identity (author and display name) of the open
record are unchanged, so the lines between two handle lines accumulate into
the same record (a stat line may instead abort with OverflowError). -/
theorem C2_handle_boundaries (prev : Option (List Char)) (lineRaw : List Char)
    (st : ParseState) :
    (∀ grp, handleSearch (pyStrip lineRaw) = some grp →
      handleGuard prev (pyStrip lineRaw) = true →
      stepE prev lineRaw st =
        Except.ok { tweets := flushTweets st, current := some (mkNewTweet grp prev),
                    contents := [] }) ∧
    (qualifies prev lineRaw = false →
      stepE prev lineRaw st = Except.error "OverflowError" ∨
      ∃ st', stepE prev lineRaw st = Except.ok st' ∧ st'.tweets = st.tweets ∧
        st'.current.map Tweet.author = st.current.map Tweet.author ∧
        st'.current.map Tweet.author_name = st.current.map Tweet.author_name) := by
  constructor
  · intro grp hs hg
    unfold stepE
    have hne : pyStrip lineRaw ≠ [] := by
      intro he
      rw [he] at hs
      cases hs
    have hskip : ¬(pyStrip lineRaw = [] ∨ pyStrip lineRaw ∈ skipTokens) := by
      rintro (hz | hz)
      · exact hne hz
      · simp only [skipTokens, List.mem_cons] at hz
        rcases hz with h2 | h2 | h2 | h2 | h2
        · rw [h2] at hs
          have hnone : handleSearch "Following".data = none := by decide
          rw [hnone] at hs
          cases hs
        · rw [h2] at hs
          have hnone : handleSearch "For you".data = none := by decide
          rw [hnone] at hs
          cases hs
        · rw [h2] at hs
          have hnone : handleSearch "Show more".data = none := by decide
          rw [hnone] at hs
          cases hs
        · rw [h2] at hs
          have hnone : handleSearch "...".data = none := by decide
          rw [hnone] at hs
          cases hs
        · simp at h2
    rw [if_neg hskip, hs]
    dsimp only
    rw [if_pos hg]
  · intro hq
    unfold qualifies at hq
    unfold stepE
    by_cases hskip : pyStrip lineRaw = [] ∨ pyStrip lineRaw ∈ skipTokens
    · rw [if_pos hskip]
      exact Or.inr ⟨st, rfl, rfl, rfl, rfl⟩
    · rw [if_neg hskip]
      cases hhs : handleSearch (pyStrip lineRaw) with
      | some grp =>
        rw [hhs] at hq
        dsimp only at hq ⊢
        rw [if_neg (by simp [hq])]
        exact afterHandle_keep _ st
      | none => exact afterHandle_keep _ st

/-- Witness for C2 at a concrete handle line opening a fresh record. -/
theorem C2_handle_boundaries_witness :
    stepE none "@bob".data { tweets := [], current := none, contents := [] } =
      Except.ok { tweets := [],
                  current := some { author := "@bob", author_name := "", content := "" },
                  contents := [] } :=
  (C2_handle_boundaries none "@bob".data
    { tweets := [], current := none, contents := [] }).1 "bob".data (by decide) (by decide)

/-! ### Claim C10 -/

lemma takeWhile_all {p : Char → Bool} : ∀ {l : List Char}, (∀ c ∈ l, p c = true) →
    l.takeWhile p = l := by
  intro l
  induction l with
  | nil => intro _; rfl
  | cons c rest ih =>
    intro h
    rw [List.takeWhile_cons_of_pos (h c (List.mem_cons_self c rest))]
    rw [ih (fun x hx => h x (List.mem_cons_of_mem c hx))]

lemma isPrefixOf_append_self : ∀ (l t : List Char), l.isPrefixOf (l ++ t) = true := by
  intro l
  induction l with
  | nil => intro t; simp [List.isPrefixOf]
  | cons c rest ih =>
    intro t
    show ((c == c) && rest.isPrefixOf (rest ++ t)) = true
    rw [beq_self_eq_true, ih t, Bool.and_self]

lemma isPrefixOf_take : ∀ {l1 l2 : List Char}, l1.isPrefixOf l2 = true →
    l2.take l1.length = l1 := by
  intro l1
  induction l1 with
  | nil => intro l2 _; rfl
  | cons a as ih =>
    intro l2 h
    cases l2 with
    | nil => cases h
    | cons b bs =>
      have hab := (Bool.and_eq_true _ _).mp h
      have hae : a = b := beq_iff_eq.mp hab.1
      subst hae
      show (a :: bs).take (as.length + 1) = a :: as
      rw [List.take_succ_cons, ih hab.2]

lemma extract_eq_cons (c : Char) (rest : List Char) :
    extract_tweet_id (c :: rest) =
      if (statusLit.isPrefixOf (c :: rest) &&
          (match (c :: rest).drop 8 with | d :: _ => d.isDigit | [] => false)) = true then
        some (((c :: rest).drop 8).takeWhile Char.isDigit)
      else extract_tweet_id rest := rfl

lemma extract_cons_pos {c : Char} {rest : List Char}
    (h : (statusLit.isPrefixOf (c :: rest) &&
      (match (c :: rest).drop 8 with | d :: _ => d.isDigit | [] => false)) = true) :
    extract_tweet_id (c :: rest) =
      some (((c :: rest).drop 8).takeWhile Char.isDigit) := by
  rw [extract_eq_cons, if_pos h]

lemma extract_cons_neg {c : Char} {rest : List Char}
    (h : (statusLit.isPrefixOf (c :: rest) &&
      (match (c :: rest).drop 8 with | d :: _ => d.isDigit | [] => false)) = false) :
    extract_tweet_id (c :: rest) = extract_tweet_id rest := by
  rw [extract_eq_cons, if_neg (by simp only [h]; exact Bool.false_ne_true)]

lemma extract_cons_ne_slash {c : Char} {rest : List Char} (h : c ≠ '/') :
    extract_tweet_id (c :: rest) = extract_tweet_id rest := by
  apply extract_cons_neg
  have hb : (('/' : Char) == c) = false := by
    rw [beq_eq_false_iff_ne]
    exact fun he => h he.symm
  have hpre : statusLit.isPrefixOf (c :: rest) = false := by
    show (('/' : Char) == c && List.isPrefixOf "status/".data rest) = false
    rw [hb, Bool.false_and]
  rw [hpre, Bool.false_and]

lemma extract_cons_slash_ne {c2 : Char} {rest : List Char} (h : c2 ≠ 's') :
    extract_tweet_id ('/' :: c2 :: rest) = extract_tweet_id (c2 :: rest) := by
  apply extract_cons_neg
  have hb : (('s' : Char) == c2) = false := by
    rw [beq_eq_false_iff_ne]
    exact fun he => h he.symm
  have hpre : statusLit.isPrefixOf ('/' :: c2 :: rest) = false := by
    show (('/' : Char) == '/' &&
      (('s' : Char) == c2 && List.isPrefixOf "tatus/".data rest)) = false
    rw [hb, Bool.false_and, Bool.and_false]
  rw [hpre, Bool.false_and]

lemma extract_at_statusLit (ds : List Char) (h1 : ds ≠ [])
    (h2 : ∀ c ∈ ds, c.isDigit = true) :
    extract_tweet_id (statusLit ++ ds) = some ds := by
  have hcons : statusLit ++ ds = '/' :: ("status/".data ++ ds) := rfl
  rw [hcons]
  rw [extract_cons_pos ?hcond]
  case hcond =>
    have hpre : statusLit.isPrefixOf ('/' :: ("status/".data ++ ds)) = true := by
      rw [← hcons]
      exact isPrefixOf_append_self statusLit ds
    have hdrop : ('/' :: ("status/".data ++ ds)).drop 8 = ds := by
      rw [← hcons]
      have : statusLit.length = 8 := rfl
      rw [← this]
      exact List.drop_left statusLit ds
    rw [hpre, hdrop, Bool.true_and]
    cases ds with
    | nil => exact absurd rfl h1
    | cons d r => exact h2 d (List.mem_cons_self d r)
  have hdrop : ('/' :: ("status/".data ++ ds)).drop 8 = ds := by
    rw [← hcons]
    have : statusLit.length = 8 := rfl
    rw [← this]
    exact List.drop_left statusLit ds
  rw [hdrop, takeWhile_all h2]

lemma extract_word_region : ∀ (w ds : List Char), w.all isWordChar = true → ds ≠ [] →
    (∀ c ∈ ds, c.isDigit = true) →
    extract_tweet_id (w ++ (statusLit ++ ds)) = some ds := by
  intro w
  induction w with
  | nil =>
    intro ds _ h2 h3
    exact extract_at_statusLit ds h2 h3
  | cons c w' ih =>
    intro ds hall h2 h3
    have hc : isWordChar c = true :=
      List.all_eq_true.mp hall c (List.mem_cons_self c w')
    have hcs : c ≠ '/' := by
      intro he
      subst he
      exact absurd hc (by decide)
    rw [List.cons_append, extract_cons_ne_slash hcs]
    exact ih ds (List.all_eq_true.mpr
      (fun x hx => List.all_eq_true.mp hall x (List.mem_cons_of_mem c hx))) h2 h3

lemma word_prefix_status {sn ds : List Char} (hw : sn.all isWordChar = true)
    (hp : List.isPrefixOf "status/".data (sn ++ (statusLit ++ ds)) = true) :
    sn = "status".data := by
  have htake : (sn ++ (statusLit ++ ds)).take 7 = "status/".data := by
    have := isPrefixOf_take hp
    simpa using this
  rcases sn with _ | ⟨a1, _ | ⟨a2, _ | ⟨a3, _ | ⟨a4, _ | ⟨a5, _ | ⟨a6, _ | ⟨a7, tl⟩⟩⟩⟩⟩⟩⟩
  · simp [statusLit, List.take] at htake
  · simp [statusLit, List.take] at htake
  · simp [statusLit, List.take] at htake
  · simp [statusLit, List.take] at htake
  · simp [statusLit, List.take] at htake
  · simp [statusLit, List.take] at htake
  · simp only [List.cons_append, List.nil_append, List.take] at htake
    simp at htake
    obtain ⟨e1, e2, e3, e4, e5, e6⟩ := htake
    subst e1; subst e2; subst e3; subst e4; subst e5; subst e6
    rfl
  · exfalso
    simp only [List.cons_append, List.take] at htake
    simp at htake
    obtain ⟨_, _, _, _, _, _, e7⟩ := htake
    have h7 : isWordChar a7 = true := by
      have := List.all_eq_true.mp hw a7
      apply this
      simp
    rw [e7] at h7
    exact absurd h7 (by decide)

lemma extract_slash_word (sn ds : List Char) (hw : sn.all isWordChar = true)
    (h1 : ds ≠ []) (h2 : ∀ c ∈ ds, c.isDigit = true) :
    extract_tweet_id ('/' :: (sn ++ (statusLit ++ ds))) = some ds := by
  by_cases hp : List.isPrefixOf "status/".data (sn ++ (statusLit ++ ds)) = true
  · have hsn := word_prefix_status hw hp
    subst hsn
    have hstep : extract_tweet_id ('/' :: ("status".data ++ (statusLit ++ ds))) =
        extract_tweet_id ("status".data ++ (statusLit ++ ds)) := by
      apply extract_cons_neg
      have hB : (match ('/' :: ("status".data ++ (statusLit ++ ds))).drop 8 with
          | d :: _ => d.isDigit | [] => false) = false := rfl
      rw [hB, Bool.and_false]
    rw [hstep]
    exact extract_word_region "status".data ds (by decide) h1 h2
  · have hA : statusLit.isPrefixOf ('/' :: (sn ++ (statusLit ++ ds))) = false := by
      show (('/' : Char) == '/' &&
        List.isPrefixOf "status/".data (sn ++ (statusLit ++ ds))) = false
      rw [Bool.eq_false_iff.mpr hp, Bool.and_false]
    rw [extract_cons_neg (by rw [hA, Bool.false_and])]
    exact extract_word_region sn ds hw h1 h2

lemma extract_https (sn ds : List Char) (hw : sn.all isWordChar = true)
    (h1 : ds ≠ []) (h2 : ∀ c ∈ ds, c.isDigit = true) :
    extract_tweet_id ("https://x.com/".data ++ (sn ++ (statusLit ++ ds))) = some ds := by
  have e0 : "https://x.com/".data ++ (sn ++ (statusLit ++ ds)) =
      'h' :: 't' :: 't' :: 'p' :: 's' :: ':' :: '/' :: '/' :: 'x' :: '.' :: 'c' ::
        'o' :: 'm' :: '/' :: (sn ++ (statusLit ++ ds)) := rfl
  rw [e0]
  rw [extract_cons_ne_slash (by decide)]
  rw [extract_cons_ne_slash (by decide)]
  rw [extract_cons_ne_slash (by decide)]
  rw [extract_cons_ne_slash (by decide)]
  rw [extract_cons_ne_slash (by decide)]
  rw [extract_cons_ne_slash (by decide)]
  rw [extract_cons_slash_ne (by decide)]
  rw [extract_cons_slash_ne (by decide)]
  rw [extract_cons_ne_slash (by decide)]
  rw [extract_cons_ne_slash (by decide)]
  rw [extract_cons_ne_slash (by decide)]
  rw [extract_cons_ne_slash (by decide)]
  rw [extract_cons_ne_slash (by decide)]
  exact extract_slash_word sn ds hw h1 h2

lemma string_ne_empty_data {s : String} (h : s ≠ "") : s.data ≠ [] := by
  intro he
  exact h (String.ext he)

lemma isEmpty_false_of_ne {s : String} (h : s ≠ "") : s.isEmpty = false := by
  cases he : s.isEmpty
  · rfl
  · exact absurd ((String.isEmpty_iff s).mp he) h

/-- Counterexample to C10 as stated: a screen name containing a
status segment makes the round trip return the wrong id: the URL built for
tweet id 123 and screen name a/status/9 extracts as 9. -/
theorem C10_counterexample :
    (tweet_from_xhr_json { tweet_id := some "123",
                           screen_name := some "a/status/9" }).tweet_url =
      some "https://x.com/a/status/9/status/123" ∧
    extract_tweet_id "https://x.com/a/status/9/status/123".data = some "9".data ∧
    "9".data ≠ "123".data := by
  refine ⟨by decide, by decide, by decide⟩

/-- Claim C10, amended (corrected): for every XHR record whose resolved tweet
id is a non-empty all-digit string and whose resolved screen name is
non-empty and consists only of word characters (as Twitter screen names do),
tweet_from_xhr_json builds the status URL and extract_tweet_id recovers
exactly that tweet id from it; when the resolved id or screen name is
missing or empty, tweet_url stays None. -/
theorem C10_roundtrip (d : XhrData) (tid sn : String)
    (hid : xhrTweetId d = some tid) (hid2 : tid ≠ "")
    (hdig : ∀ c ∈ tid.data, c.isDigit = true)
    (hsn : xhrScreenName d = sn) (hsn2 : sn ≠ "")
    (hw : sn.data.all isWordChar = true) :
    ((tweet_from_xhr_json d).tweet_url =
        some ("https://x.com/" ++ sn ++ "/status/" ++ tid) ∧
      extract_tweet_id ("https://x.com/" ++ sn ++ "/status/" ++ tid).data =
        some tid.data) ∧
    ∀ d' : XhrData, (pyTruthyO (xhrTweetId d') = false ∨ xhrScreenName d' = "") →
      (tweet_from_xhr_json d').tweet_url = none := by
  refine ⟨⟨?_, ?_⟩, ?_⟩
  · show xhrTweetUrl d = _
    unfold xhrTweetUrl
    rw [hid, hsn]
    have hcond : (pyTruthyO (some tid) && !sn.isEmpty) = true := by
      show (!tid.isEmpty && !sn.isEmpty) = true
      rw [isEmpty_false_of_ne hid2, isEmpty_false_of_ne hsn2]
      rfl
    rw [if_pos hcond]
    rfl
  · have hdata : ("https://x.com/" ++ sn ++ "/status/" ++ tid).data =
        "https://x.com/".data ++ (sn.data ++ (statusLit ++ tid.data)) := by
      rw [String.data_append, String.data_append, String.data_append]
      rw [List.append_assoc, List.append_assoc]
      rfl
    rw [hdata]
    exact extract_https sn.data tid.data hw (string_ne_empty_data hid2) hdig
  · intro d' hm
    show xhrTweetUrl d' = none
    unfold xhrTweetUrl
    rcases hm with hm | hm
    · rw [if_neg (by rw [hm, Bool.false_and]; exact Bool.false_ne_true)]
    · have hfalse : (pyTruthyO (xhrTweetId d') && !(xhrScreenName d').isEmpty) = false := by
        rw [hm]
        show (pyTruthyO (xhrTweetId d') && !true) = false
        rw [Bool.not_true, Bool.and_false]
      rw [if_neg (by rw [hfalse]; exact Bool.false_ne_true)]

/-- Witness for C10 at a concrete record with id 123 and screen name alice. -/
theorem C10_roundtrip_witness :
    ((tweet_from_xhr_json { tweet_id := some "123",
                            screen_name := some "alice" }).tweet_url =
      some ("https://x.com/" ++ "alice" ++ "/status/" ++ "123") ∧
      extract_tweet_id ("https://x.com/" ++ "alice" ++ "/status/" ++ "123").data =
        some "123".data) ∧
    ∀ d' : XhrData, (pyTruthyO (xhrTweetId d') = false ∨ xhrScreenName d' = "") →
      (tweet_from_xhr_json d').tweet_url = none :=
  C10_roundtrip { tweet_id := some "123", screen_name := some "alice" } "123" "alice"
    (by decide) (by decide) (by decide) (by decide) (by decide) (by decide)
